import Mathlib

/- Shallow embedding of the Velmex VXM serial driver (vxm.py, libvxm.py,
vxm_repl.py): command framing, ready detection (sentinel character and
quiet window), position parsing, unit conversion, busy polling and the
homing sequence. Incoming bytes are modelled as the per-poll chunks of
decoded characters the serial reads return, clocks as integer millisecond
readings supplied by the environment (one reading per clock call site in
the source), and each polling loop as a fuel-indexed recursion that
returns none when the fuel runs out before the loop exits. -/

/-- Error kinds raised by the driver: ValueError for a bad motor or a bad
homing direction, RuntimeError for a missing scale, TimeoutError from the
bounded waits. -/
inductive VxmError
  | invalidMotor
  | invalidDirection
  | notConfigured
  | timeout
  deriving DecidableEq

/-- ASCII whitespace recognised by Python str.strip and str.split
(the replies handled here are ASCII; further Unicode space characters
never occur on this wire). -/
def pyIsSpace (c : Char) : Bool :=
  c = ' ' || c = '\t' || c = '\n' || c = '\r' || c = '\x0b' || c = '\x0c'

/-- Python str.strip: drop leading and trailing whitespace. -/
def pyStrip (l : List Char) : List Char :=
  ((l.dropWhile pyIsSpace).reverse.dropWhile pyIsSpace).reverse

/-- Index of the last occurrence of a character, if any (str.rfind). -/
def rfindIdx (c : Char) : List Char → Option Nat
  | [] => none
  | x :: xs =>
    match rfindIdx c xs with
    | some i => some (i + 1)
    | none => if x = c then some 0 else none

/-- Python str.rfind: index of the last occurrence, or -1 when absent. -/
def pyRfind (c : Char) (l : List Char) : Int :=
  match rfindIdx c l with
  | some i => (i : Int)
  | none => -1

/-- Python slice s[:i], including the negative-index convention. -/
def pySlice (l : List Char) (i : Int) : List Char :=
  if i < 0 then l.take (((l.length : Int) + i).toNat) else l.take i.toNat

/-- Outcome of a ready wait: collected text, or a raised TimeoutError
(which carries no buffer). -/
inductive WaitRes
  | ok : List Char → WaitRes
  | timeout : WaitRes
  deriving DecidableEq

/-- Environment of one polling loop: chunks i is what the serial read of
iteration i returns (decoded, possibly empty), and tGuard/tRx/tChk i are
the millisecond clock readings taken at the loop guard, at the last_rx
update after a non-empty read, and at the quiet-window check of
iteration i. -/
structure PollEnv where
  chunks : Nat → List Char
  tGuard : Nat → Int
  tRx : Nat → Int
  tChk : Nat → Int

/-- Char-mode branch of vxm.py wait_ready (identical in vxm_repl.py):
poll; on a non-empty chunk append it to the buffer and, if the chunk
contains the ready character, return the buffer up to the last occurrence
of that character, stripped; on an empty chunk sleep and retry; raise
TimeoutError once the clock reaches the deadline endT. -/
def waitCharFrom (env : PollEnv) (c : Char) (endT : Int) :
    Nat → Nat → List Char → Option WaitRes
  | 0, _, _ => none
  | fuel + 1, i, buf =>
    if env.tGuard i < endT then
      let chunk := env.chunks i
      if chunk = [] then
        waitCharFrom env c endT fuel (i + 1) buf
      else
        let buf2 := buf ++ chunk
        if c ∈ chunk then
          some (WaitRes.ok (pyStrip (pySlice buf2 (pyRfind c buf2))))
        else
          waitCharFrom env c endT fuel (i + 1) buf2
    else
      some WaitRes.timeout

/-- Quiet-window wait loop shared (verbatim, but for the line after the
loop) by vxm.py wait_ready silence branch and libvxm.py
_wait_ready_silence: on a non-empty chunk append and refresh last_rx; on
an empty chunk return the stripped buffer once at least quiet ms passed
since last_rx, else sleep and retry; when the clock reaches endT the two
sources differ, captured by onDeadline. -/
def waitSilenceFrom (onDeadline : List Char → WaitRes) (env : PollEnv)
    (quiet endT : Int) : Nat → Nat → List Char → Int → Option WaitRes
  | 0, _, _, _ => none
  | fuel + 1, i, buf, lastRx =>
    if env.tGuard i < endT then
      let chunk := env.chunks i
      if chunk = [] then
        if quiet ≤ env.tChk i - lastRx then
          some (WaitRes.ok (pyStrip buf))
        else
          waitSilenceFrom onDeadline env quiet endT fuel (i + 1) buf lastRx
      else
        waitSilenceFrom onDeadline env quiet endT fuel (i + 1) (buf ++ chunk)
          (env.tRx i)
    else
      some (onDeadline buf)

/-- vxm.py wait_ready, silence mode: the deadline raises TimeoutError. -/
def vxmSilence (env : PollEnv) (quiet endT : Int)
    (fuel i : Nat) (buf : List Char) (lastRx : Int) : Option WaitRes :=
  waitSilenceFrom (fun _ => WaitRes.timeout) env quiet endT fuel i buf lastRx

/-- libvxm.py _wait_ready_silence: the deadline falls through the loop
and returns the stripped buffer. -/
def libSilence (env : PollEnv) (quiet endT : Int)
    (fuel i : Nat) (buf : List Char) (lastRx : Int) : Option WaitRes :=
  waitSilenceFrom (fun b => WaitRes.ok (pyStrip b)) env quiet endT fuel i
    buf lastRx

/-- Concatenation of the chunks of iterations i, i+1, ..., i+n-1: the
text accumulated by a wait that started at iteration i and has consumed n
polls. -/
def accFrom (env : PollEnv) : Nat → Nat → List Char
  | _, 0 => []
  | i, n + 1 => env.chunks i ++ accFrom env (i + 1) n

/-- Value of last_rx at the start of iteration i+n of a silence wait,
given that it was init at the start of iteration i and that the loop did
not return in between. -/
def lastRxAt (env : PollEnv) (init : Int) : Nat → Nat → Int
  | _, 0 => init
  | i, n + 1 =>
    lastRxAt env (if env.chunks i = [] then init else env.tRx i) (i + 1) n

/-- Python round on a real value (floats are modelled exactly as
rationals here): round half to even, as int(round(x)) computes it. With
f the floor of q and r the remainder q.num - f * q.den, the fractional
part r / q.den is compared against one half by comparing 2 * r with
q.den. -/
def pyRound (q : ℚ) : ℤ :=
  let f : ℤ := Int.fdiv q.num (q.den : ℤ)
  let r : ℤ := q.num - f * (q.den : ℤ)
  if 2 * r < (q.den : ℤ) then f
  else if (q.den : ℤ) < 2 * r then f + 1
  else if f % 2 = 0 then f else f + 1

/-- mm_to_steps of vxm.py and libvxm.py: RuntimeError when no scale was
set, otherwise int(round(mm * steps_per_mm)). -/
def mm_to_steps (scale : Option ℚ) (mm : ℚ) : Except VxmError ℤ :=
  match scale with
  | none => Except.error VxmError.notConfigured
  | some s => Except.ok (pyRound (mm * s))

/-- Python str.encode with ascii codec and errors="ignore": characters
above 127 are dropped, the rest become their code points. -/
def encodeAsciiIgnore (s : List Char) : List Nat :=
  (s.filter (fun c => c.toNat ≤ 127)).map Char.toNat

/-- The transport writes performed by one send call (vxm.py send,
libvxm.py send and vxm_repl.py send all do exactly one write of the
command plus a carriage return; the preceding reset_input_buffer only
discards input). -/
def sendWrites (cmd : List Char) : List (List Nat) :=
  [encodeAsciiIgnore (cmd ++ ['\r'])]

/-- C5: mm_to_steps fails with the NotConfigured error exactly when no
scale has been set; with a scale set it returns round(units *
stepsPerUnit) as an integer under the host round-to-nearest semantics;
in particular for stepsPerUnit = 40 it maps 2.5 units to 100 steps. -/
theorem mm_to_steps_spec :
    (∀ u : ℚ, mm_to_steps none u = Except.error VxmError.notConfigured)
    ∧ (∀ s u : ℚ, mm_to_steps (some s) u = Except.ok (pyRound (u * s)))
    ∧ mm_to_steps (some 40) (5 / 2) = Except.ok 100 := by
  refine ⟨fun u => rfl, fun s u => rfl, ?_⟩
  have h1 : ((5 / 2 : ℚ) * 40) = (100 : ℚ) := by norm_num
  have h : pyRound ((5 / 2 : ℚ) * 40) = 100 := by rw [h1]; decide
  show Except.ok (pyRound ((5 / 2 : ℚ) * 40)) = Except.ok 100
  rw [h]

/-- C8: a command made of ASCII characters is written to the transport as
exactly that string followed by one carriage return, with no other
framing bytes. -/
theorem send_frames_cmd_with_cr (cmd : List Char)
    (h : ∀ c ∈ cmd, c.toNat ≤ 127) :
    sendWrites cmd = [cmd.map Char.toNat ++ [13]] := by
  simp only [sendWrites, encodeAsciiIgnore]
  rw [List.filter_eq_self.mpr, List.map_append]
  · rfl
  · intro a ha
    rcases List.mem_append.mp ha with h1 | h1
    · simpa using h a h1
    · simp only [List.mem_singleton] at h1
      subst h1
      decide

/-- Witness for C8 at the concrete command R. -/
theorem send_frames_cmd_with_cr_inst :
    sendWrites ("R".toList) = [[82, 13]] := by
  have h := send_frames_cmd_with_cr ("R".toList) (by decide)
  exact h.trans (by rfl)

/-- Axis letter for a motor: X, Y, Z, T for 1..4, none otherwise (the
dict get of vxm.py position and libvxm.py position_raw). -/
def axisCmd (m : Int) : Option String :=
  if m = 1 then some "X"
  else if m = 2 then some "Y"
  else if m = 3 then some "Z"
  else if m = 4 then some "T"
  else none

/-- Speed command rendered by set_speed with full_power left False. -/
def speedCmd (m speed : Int) : String :=
  "S" ++ toString m ++ "M" ++ toString speed

/-- Relative move command rendered by move_relative. -/
def moveCmd (m steps : Int) : String :=
  "I" ++ toString m ++ "M" ++ toString steps

/-- Seek command of home: a negative-signed zero-magnitude incremental
move for direction neg, its positive counterpart for pos. -/
def seekCmd (m : Int) (dir : String) : String :=
  if dir = "neg" then "I" ++ toString m ++ "M-0"
  else "I" ++ toString m ++ "M0"

/-- Backoff step count of home: abs(backoff_steps) for direction neg,
its negation for pos. -/
def backoffSteps (dir : String) (bo : Int) : Int :=
  if dir = "neg" then (bo.natAbs : Int) else -(bo.natAbs : Int)

/-- Absolute-zero-set command issued at the end of home. -/
def zeroCmd (m : Int) : String :=
  "IA" ++ toString m ++ "M-0"

/-- Environment of one home call: outcomes of its three blocking waits
(the run after the seek move, the run after the backoff move, and the
wait of the final zeroing send). An error is the TimeoutError raised by
wait_ready. -/
structure HomeEnv where
  run1 : Except VxmError String
  run2 : Except VxmError String
  zeroResp : Except VxmError String

/-- vxm.py home: validate the direction, then set speed, queue the seek
move, run blocking; on success queue the backoff move, run blocking; on
success send the zeroing command blocking. The first component lists the
commands written to the transport in order (each is framed by send as the
command plus a carriage return); any blocking wait that raises aborts the
remainder. libvxm.py home and vxm_repl.py home issue the same command
sequence. -/
def home_vxm (m : Int) (dir : String) (speed bo : Int) (env : HomeEnv) :
    List String × Except VxmError Unit :=
  if dir = "neg" ∨ dir = "pos" then
    match env.run1 with
    | Except.error e => ([speedCmd m speed, seekCmd m dir, "R"], Except.error e)
    | Except.ok _ =>
      match env.run2 with
      | Except.error e =>
        ([speedCmd m speed, seekCmd m dir, "R",
          moveCmd m (backoffSteps dir bo), "R"], Except.error e)
      | Except.ok _ =>
        match env.zeroResp with
        | Except.error e =>
          ([speedCmd m speed, seekCmd m dir, "R",
            moveCmd m (backoffSteps dir bo), "R", zeroCmd m], Except.error e)
        | Except.ok _ =>
          ([speedCmd m speed, seekCmd m dir, "R",
            moveCmd m (backoffSteps dir bo), "R", zeroCmd m], Except.ok ())
  else ([], Except.error VxmError.invalidDirection)

/-- vxm.py position: look the motor up in the axis table and raise
ValueError before any I/O when absent; otherwise write the single axis
command and return the outcome of the blocking wait. The first component
lists the commands written. -/
def position_trace (m : Int) (waitOut : Except VxmError String) :
    List String × Except VxmError String :=
  match axisCmd m with
  | none => ([], Except.error VxmError.invalidMotor)
  | some a => ([a], waitOut)

/-- C1 counterexample: a homing call for motor 5 (outside 1..4) does not
fail with InvalidMotor before I/O; it writes all six homing commands,
starting with the speed command, and completes. -/
theorem home_invalid_motor_writes :
    home_vxm 5 "neg" 500 200 ⟨Except.ok "", Except.ok "", Except.ok ""⟩ =
      (["S5M500", "I5M-0", "R", "I5M200", "R", "IA5M-0"], Except.ok ()) :=
  rfl

/-- C1 amended: for a motor outside 1..4 every position query fails with
InvalidMotor before any byte is written to the transport (zero writes),
but a homing call performs no motor validation and writes its speed
command first regardless of the motor. -/
theorem position_invalid_motor_no_write (m : Int)
    (h : ¬(m = 1 ∨ m = 2 ∨ m = 3 ∨ m = 4)) :
    (∀ w, position_trace m w = ([], Except.error VxmError.invalidMotor))
    ∧ ∀ speed bo env,
        ((home_vxm m "neg" speed bo env).1).head? = some (speedCmd m speed) := by
  push_neg at h
  obtain ⟨h1, h2, h3, h4⟩ := h
  constructor
  · intro w
    simp [position_trace, axisCmd, h1, h2, h3, h4]
  · intro speed bo env
    rcases env with ⟨r1, r2, r3⟩
    cases r1 <;> cases r2 <;> cases r3 <;> rfl

/-- Witness for the amended C1 at motor 5. -/
theorem position_invalid_motor_no_write_inst :
    position_trace 5 (Except.ok "") =
      ([], Except.error VxmError.invalidMotor) :=
  (position_invalid_motor_no_write 5 (by decide)).1 (Except.ok "")

/-- C2: for direction neg, home transmits the negative-signed seek move
(index 1 of the write trace) before any backoff move (index 3), the
backoff move carries a non-negative step count (the sign opposite to the
seek direction), and when the seek run step times out the trace stops at
the run command: no backoff and no zeroing command is ever written and
the error propagates. -/
theorem home_neg_seek_then_backoff_abort (m speed bo : Int) (env : HomeEnv) :
    ((home_vxm m "neg" speed bo env).1.get? 1 = some (seekCmd m "neg")
      ∧ seekCmd m "neg" = "I" ++ toString m ++ "M-0")
    ∧ (∀ r, env.run1 = Except.ok r →
        (home_vxm m "neg" speed bo env).1.get? 3 =
          some (moveCmd m (backoffSteps "neg" bo))
        ∧ 0 ≤ backoffSteps "neg" bo)
    ∧ ∀ e, env.run1 = Except.error e →
        (home_vxm m "neg" speed bo env).1 =
          [speedCmd m speed, seekCmd m "neg", "R"]
        ∧ (home_vxm m "neg" speed bo env).2 = Except.error e := by
  rcases env with ⟨r1, r2, r3⟩
  refine ⟨?_, ?_, ?_⟩
  · cases r1 <;> cases r2 <;> cases r3 <;> exact ⟨rfl, rfl⟩
  · intro r hr
    simp only at hr
    subst hr
    refine ⟨?_, ?_⟩
    · cases r2 <;> cases r3 <;> rfl
    · unfold backoffSteps
      rw [if_pos rfl]
      exact Int.natCast_nonneg _
  · intro e he
    simp only at he
    subst he
    exact ⟨rfl, rfl⟩

/-- Witness for C2: with the seek run timing out, the trace is exactly
speed, seek, run, and the TimeoutError propagates. -/
theorem home_neg_seek_then_backoff_abort_inst :
    (home_vxm 1 "neg" 500 200
        ⟨Except.error VxmError.timeout, Except.ok "", Except.ok ""⟩).1 =
      ["S1M500", "I1M-0", "R"]
    ∧ (home_vxm 1 "neg" 500 200
        ⟨Except.error VxmError.timeout, Except.ok "", Except.ok ""⟩).2 =
      Except.error VxmError.timeout := by
  have h := (home_neg_seek_then_backoff_abort 1 500 200
    ⟨Except.error VxmError.timeout, Except.ok "", Except.ok ""⟩).2.2
    VxmError.timeout rfl
  exact ⟨h.1.trans (by rfl), h.2⟩

/-- Digit value accumulator for a list of decimal digits. -/
def digitsVal (l : List Char) : Int :=
  l.foldl (fun a c => a * 10 + ((c.toNat - '0'.toNat : Nat) : Int)) 0

/-- Tail of the digit part of a Python int literal after its first
digit: a run of digits in which single underscores may appear between
digits. -/
def pyDigitsCore : List Char → Bool
  | [] => true
  | '_' :: rest =>
    match rest with
    | [] => false
    | d :: rest2 => d.isDigit && pyDigitsCore rest2
  | d :: rest => d.isDigit && pyDigitsCore rest

/-- Digit part of a Python int literal: one digit, then digits with
optional single underscores between them. -/
def pyIntDigits : List Char → Bool
  | [] => false
  | d :: rest => d.isDigit && pyDigitsCore rest

/-- Python int() applied to a whitespace-free token: optional sign, then
the digit part; None models the ValueError raised otherwise. -/
def pyIntTok (l : List Char) : Option Int :=
  match l with
  | '+' :: rest =>
    if pyIntDigits rest then some (digitsVal (rest.filter (fun c => c ≠ '_')))
    else none
  | '-' :: rest =>
    if pyIntDigits rest then
      some (-(digitsVal (rest.filter (fun c => c ≠ '_'))))
    else none
  | _ =>
    if pyIntDigits l then some (digitsVal (l.filter (fun c => c ≠ '_')))
    else none

/-- Anchored match of the regular expression [-+]?\d+ at the head of the
list: an optional sign followed by the longest non-empty digit run. -/
def matchIntAt : List Char → Option (List Char)
  | [] => none
  | c :: rest =>
    if c = '-' ∨ c = '+' then
      let ds := rest.takeWhile Char.isDigit
      if ds = [] then none else some (c :: ds)
    else if c.isDigit then some (c :: rest.takeWhile Char.isDigit)
    else none

/-- re.search of [-+]?\d+: the match at the leftmost position where one
starts. -/
def searchTok : List Char → Option (List Char)
  | [] => none
  | c :: rest =>
    match matchIntAt (c :: rest) with
    | some t => some t
    | none => searchTok rest

/-- Integer value of a matched [-+]?\d+ token. -/
def tokVal : List Char → Int
  | '-' :: ds => -(digitsVal ds)
  | '+' :: ds => digitsVal ds
  | ds => digitsVal ds

/-- First signed-integer substring of a text, parsed; none when the
regex has no match (int(m.group(0)) if m else None). -/
def searchInt (l : List Char) : Option Int :=
  (searchTok l).map tokVal

/-- libvxm.py position_value: validate the motor (position_raw raises
ValueError before writing), then re.search [-+]?\d+ over the stripped
line that position_raw returned, parsing the match and reporting None
when there is none. -/
def position_value_lib (m : Int) (line : List Char) :
    Except VxmError (Option Int) :=
  match axisCmd m with
  | none => Except.error VxmError.invalidMotor
  | some _ => Except.ok (searchInt (pyStrip line))

/-- libvxm.py is_busy: two position_value samples with no exception
handler (a failure propagates); a None reading is defaulted to 0 by the
or-0 idiom and the samples are compared. -/
def is_busy_lib (m : Int) (l1 l2 : List Char) : Except VxmError Bool :=
  match position_value_lib m l1 with
  | Except.error e => Except.error e
  | Except.ok o1 =>
    match position_value_lib m l2 with
    | Except.error e => Except.error e
    | Except.ok o2 => Except.ok (o1.getD 0 != o2.getD 0)

/-- First whitespace-separated token of a text (s.split()[0], none when
the split is empty and indexing would raise). -/
def firstTokenWs (l : List Char) : Option (List Char) :=
  ((l.splitOnP pyIsSpace).filter (fun t => t ≠ [])).head?

/-- The reading vxm.py is_busy derives from one position string:
0 for an empty reply, otherwise int of the first token of the stripped
reply; none models the IndexError or ValueError the try block catches. -/
def vxmParsePos (s : List Char) : Option Int :=
  if s = [] then some 0
  else
    match firstTokenWs (pyStrip s) with
    | none => none
    | some tok => pyIntTok tok

/-- vxm.py position as seen by is_busy: ValueError for a motor outside
the axis table, otherwise the outcome of the blocking send (which can be
the TimeoutError of wait_ready). -/
def position_vxm_read (m : Int) (waitOut : Except VxmError (List Char)) :
    Except VxmError (List Char) :=
  match axisCmd m with
  | none => Except.error VxmError.invalidMotor
  | some _ => waitOut

/-- vxm.py is_busy: both samples run inside one try block whose except
clause returns False; read one, parse, read two, parse, compare. -/
def is_busy_vxm (m : Int) (w1 w2 : Except VxmError (List Char)) : Bool :=
  match position_vxm_read m w1 with
  | Except.error _ => false
  | Except.ok s1 =>
    match vxmParsePos s1 with
    | none => false
    | some p1 =>
      match position_vxm_read m w2 with
      | Except.error _ => false
      | Except.ok s2 =>
        match vxmParsePos s2 with
        | none => false
        | some p2 => p1 != p2

theorem matchIntAt_none_of_no_digit (l : List Char)
    (h : ∀ c ∈ l, c.isDigit = false) : matchIntAt l = none := by
  cases l with
  | nil => rfl
  | cons c rest =>
    have hds : rest.takeWhile Char.isDigit = [] := by
      cases rest with
      | nil => rfl
      | cons y ys =>
        have hy : y.isDigit = false := h y (by simp)
        simp [List.takeWhile, hy]
    by_cases hsign : c = '-' ∨ c = '+'
    · simp [matchIntAt, hsign, hds]
    · have hc : c.isDigit = false := h c (by simp)
      simp [matchIntAt, hsign, hc]

theorem searchTok_eq_none_iff (l : List Char) :
    searchTok l = none ↔ ∀ c ∈ l, c.isDigit = false := by
  induction l with
  | nil => simp [searchTok]
  | cons c rest ih =>
    constructor
    · intro h
      cases hmatch : matchIntAt (c :: rest) with
      | some t => simp [searchTok, hmatch] at h
      | none =>
        simp only [searchTok, hmatch] at h
        intro x hx
        rcases List.mem_cons.mp hx with rfl | hx2
        · by_contra hcd
          have hcd2 : x.isDigit = true := by
            cases hiv : x.isDigit
            · exact absurd hiv hcd
            · rfl
          have hxs : ¬(x = '-' ∨ x = '+') := by
            rintro (rfl | rfl) <;> simp at hcd2
          simp [matchIntAt, hxs, hcd2] at hmatch
        · exact (ih.mp h) x hx2
    · intro h
      have hm := matchIntAt_none_of_no_digit (c :: rest) h
      simp only [searchTok, hm]
      exact ih.mpr fun x hx => h x (List.mem_cons_of_mem _ hx)

theorem searchTok_leftmost (l : List Char) (t : List Char)
    (h : searchTok l = some t) :
    ∃ k, matchIntAt (l.drop k) = some t
      ∧ ∀ j < k, matchIntAt (l.drop j) = none := by
  induction l with
  | nil => simp [searchTok] at h
  | cons c rest ih =>
    cases hmatch : matchIntAt (c :: rest) with
    | some u =>
      simp only [searchTok, hmatch] at h
      obtain rfl : u = t := by injection h
      exact ⟨0, hmatch, by omega⟩
    | none =>
      simp only [searchTok, hmatch] at h
      obtain ⟨k, hk, hall⟩ := ih h
      refine ⟨k + 1, by simpa using hk, ?_⟩
      intro j hj
      cases j with
      | zero => simpa using hmatch
      | succ j2 =>
        have : j2 < k := by omega
        simpa using hall j2 this

theorem position_value_first_int (m : Int)
    (hm : m = 1 ∨ m = 2 ∨ m = 3 ∨ m = 4) (reply : List Char) :
    position_value_lib m reply = Except.ok (searchInt (pyStrip reply))
    ∧ (searchInt (pyStrip reply) = none ↔
        ∀ c ∈ pyStrip reply, c.isDigit = false)
    ∧ ∀ v, searchInt (pyStrip reply) = some v →
        ∃ k t, matchIntAt ((pyStrip reply).drop k) = some t ∧ v = tokVal t
          ∧ ∀ j < k, matchIntAt ((pyStrip reply).drop j) = none := by
  refine ⟨?_, ?_, ?_⟩
  · rcases hm with h | h | h | h <;> subst h <;> rfl
  · unfold searchInt
    rw [Option.map_eq_none']
    exact searchTok_eq_none_iff (pyStrip reply)
  · intro v hv
    unfold searchInt at hv
    obtain ⟨t, ht, hval⟩ := Option.map_eq_some'.mp hv
    obtain ⟨k, hk, hall⟩ := searchTok_leftmost (pyStrip reply) t ht
    exact ⟨k, t, hk, hval.symm, hall⟩

theorem position_value_first_int_inst :
    position_value_lib 1 (" X = -12 mm".toList) = Except.ok (some (-12)) := by
  have h := (position_value_first_int 1 (Or.inl rfl) (" X = -12 mm".toList)).1
  exact h.trans (by rfl)

theorem is_busy_lib_propagates_cex :
    is_busy_lib 5 [] [] = Except.error VxmError.invalidMotor := rfl

theorem is_busy_error_handling :
    (∀ (m : Int) (e : VxmError) (w : Except VxmError (List Char)),
        is_busy_vxm m (Except.error e) w = false
        ∧ is_busy_vxm m w (Except.error e) = false)
    ∧ (∀ (m : Int) (w : Except VxmError (List Char)) (s : List Char),
        vxmParsePos s = none → is_busy_vxm m (Except.ok s) w = false)
    ∧ (∀ (m : Int) (l1 l2 : List Char), axisCmd m = none →
        is_busy_lib m l1 l2 = Except.error VxmError.invalidMotor)
    ∧ ∀ (m : Int) (a : String) (l1 l2 : List Char), axisCmd m = some a →
        is_busy_lib m l1 l2 =
          Except.ok
            ((searchInt (pyStrip l1)).getD 0 != (searchInt (pyStrip l2)).getD 0) := by
  refine ⟨?_, ?_, ?_, ?_⟩
  · intro m e w
    constructor
    · cases haxis : axisCmd m <;>
        simp [is_busy_vxm, position_vxm_read, haxis]
    · cases haxis : axisCmd m
      · simp [is_busy_vxm, position_vxm_read, haxis]
      · cases w with
        | error e2 => simp [is_busy_vxm, position_vxm_read, haxis]
        | ok s =>
          cases hp : vxmParsePos s <;>
            simp [is_busy_vxm, position_vxm_read, haxis, hp]
  · intro m w s hp
    cases haxis : axisCmd m <;>
      simp [is_busy_vxm, position_vxm_read, haxis, hp]
  · intro m l1 l2 h
    simp [is_busy_lib, position_value_lib, h]
  · intro m a l1 l2 h
    simp [is_busy_lib, position_value_lib, h]

theorem is_busy_error_handling_inst :
    is_busy_lib 1 ("100".toList) ("150".toList) = Except.ok true := by
  have h := is_busy_error_handling.2.2.2 1 "X" ("100".toList) ("150".toList) rfl
  exact h.trans (by rfl)

theorem waitChar_some_eq_timeout (env : PollEnv) (c : Char) (endT : Int)
    (hsent : ∀ k, c ∉ env.chunks k) :
    ∀ fuel i buf r, waitCharFrom env c endT fuel i buf = some r →
      r = WaitRes.timeout := by
  intro fuel
  induction fuel with
  | zero => intro i buf r h; simp [waitCharFrom] at h
  | succ n ih =>
    intro i buf r h
    simp only [waitCharFrom] at h
    by_cases hg : env.tGuard i < endT
    · rw [if_pos hg] at h
      by_cases hc : env.chunks i = []
      · rw [if_pos hc] at h
        exact ih _ _ _ h
      · rw [if_neg hc] at h
        have hmem : ¬c ∈ env.chunks i := hsent i
        rw [if_neg hmem] at h
        exact ih _ _ _ h
    · rw [if_neg hg] at h
      injection h with h2
      exact h2.symm

theorem waitChar_timeout_at_deadline (env : PollEnv) (c : Char) (endT : Int) :
    ∀ fuel i buf, waitCharFrom env c endT fuel i buf = some WaitRes.timeout →
      ∃ k, i ≤ k ∧ endT ≤ env.tGuard k
        ∧ ∀ j, i ≤ j → j < k → env.tGuard j < endT := by
  intro fuel
  induction fuel with
  | zero => intro i buf h; simp [waitCharFrom] at h
  | succ n ih =>
    intro i buf h
    simp only [waitCharFrom] at h
    by_cases hg : env.tGuard i < endT
    · rw [if_pos hg] at h
      have step : ∀ buf2,
          waitCharFrom env c endT n (i + 1) buf2 = some WaitRes.timeout →
          ∃ k, i ≤ k ∧ endT ≤ env.tGuard k
            ∧ ∀ j, i ≤ j → j < k → env.tGuard j < endT := by
        intro buf2 h2
        obtain ⟨k, hk1, hk2, hk3⟩ := ih (i + 1) buf2 h2
        refine ⟨k, by omega, hk2, ?_⟩
        intro j hj1 hj2
        rcases Nat.eq_or_lt_of_le hj1 with rfl | hlt
        · exact hg
        · exact hk3 j hlt hj2
      by_cases hc : env.chunks i = []
      · rw [if_pos hc] at h
        exact step _ h
      · rw [if_neg hc] at h
        by_cases hmem : c ∈ env.chunks i
        · rw [if_pos hmem] at h
          simp at h
        · rw [if_neg hmem] at h
          exact step _ h
    · rw [if_neg hg] at h
      exact ⟨i, Nat.le_refl i, Int.not_lt.mp hg, by omega⟩

theorem waitChar_buf_irrelevant (env : PollEnv) (c : Char) (endT : Int)
    (hsent : ∀ k, c ∉ env.chunks k) :
    ∀ fuel i buf buf2, waitCharFrom env c endT fuel i buf =
      waitCharFrom env c endT fuel i buf2 := by
  intro fuel
  induction fuel with
  | zero => intro i buf buf2; rfl
  | succ n ih =>
    intro i buf buf2
    simp only [waitCharFrom]
    by_cases hg : env.tGuard i < endT
    · rw [if_pos hg, if_pos hg]
      by_cases hc : env.chunks i = []
      · rw [if_pos hc, if_pos hc]
        exact ih _ _ _
      · rw [if_neg hc, if_neg hc]
        have hmem : ¬c ∈ env.chunks i := hsent i
        rw [if_neg hmem, if_neg hmem]
        exact ih _ _ _
    · rw [if_neg hg, if_neg hg]

/-- C6: in sentinel-character mode, when no incoming chunk ever contains
the sentinel, any result the wait produces is the TimeoutError, the
failing exit happens at the first loop-guard clock reading at or after
the deadline (never before), and the partial accumulated buffer has no
influence on the outcome: it is discarded, not returned. -/
theorem waitChar_no_sentinel_timeout (env : PollEnv) (c : Char) (endT : Int)
    (fuel i : Nat) (buf : List Char) (hsent : ∀ k, c ∉ env.chunks k) :
    (∀ r, waitCharFrom env c endT fuel i buf = some r → r = WaitRes.timeout)
    ∧ (waitCharFrom env c endT fuel i buf = some WaitRes.timeout →
        ∃ k, i ≤ k ∧ endT ≤ env.tGuard k
          ∧ ∀ j, i ≤ j → j < k → env.tGuard j < endT)
    ∧ ∀ buf2, waitCharFrom env c endT fuel i buf =
        waitCharFrom env c endT fuel i buf2 :=
  ⟨fun r => waitChar_some_eq_timeout env c endT hsent fuel i buf r,
   waitChar_timeout_at_deadline env c endT fuel i buf,
   fun buf2 => waitChar_buf_irrelevant env c endT hsent fuel i buf buf2⟩

/-- Environment of a stream that never emits any byte, polled by a loop
whose guard clock advances one millisecond per iteration. -/
def charTimeoutEnv : PollEnv :=
  ⟨fun _ => [], fun k => (k : Int), fun _ => 0, fun _ => 0⟩

/-- Witness for C6: on the silent stream the wait with deadline 3
evaluates to the TimeoutError, and the exit clock is at or past the
deadline. -/
theorem waitChar_no_sentinel_timeout_inst :
    waitCharFrom charTimeoutEnv '^' 3 5 0 [] = some WaitRes.timeout
    ∧ ∃ k, 0 ≤ k ∧ (3 : Int) ≤ charTimeoutEnv.tGuard k
        ∧ ∀ j, 0 ≤ j → j < k → charTimeoutEnv.tGuard j < 3 :=
  ⟨rfl,
   (waitChar_no_sentinel_timeout charTimeoutEnv '^' 3 5 0 []
      (fun k => by simp [charTimeoutEnv])).2.1 rfl⟩

theorem rfindIdx_eq_none (c : Char) :
    ∀ l : List Char, c ∉ l → rfindIdx c l = none := by
  intro l
  induction l with
  | nil => intro _; rfl
  | cons x xs ih =>
    intro h
    have hx : x ≠ c := fun he => h (he ▸ List.mem_cons_self x xs)
    have hxs : c ∉ xs := fun hm => h (List.mem_cons_of_mem x hm)
    simp only [rfindIdx, ih hxs]
    rw [if_neg hx]

theorem rfind_decomp (c : Char) :
    ∀ l : List Char, c ∈ l →
      ∃ idx pre suf, rfindIdx c l = some idx ∧ l = pre ++ c :: suf
        ∧ pre.length = idx ∧ c ∉ suf := by
  intro l
  induction l with
  | nil => intro h; simp at h
  | cons x xs ih =>
    intro h
    by_cases hxs : c ∈ xs
    · obtain ⟨idx, pre, suf, h1, h2, h3, h4⟩ := ih hxs
      refine ⟨idx + 1, x :: pre, suf, ?_, ?_, ?_, h4⟩
      · simp only [rfindIdx, h1]
      · rw [List.cons_append, h2]
      · simp [h3]
    · have hx : x = c := by
        rcases List.mem_cons.mp h with he | hm
        · exact he.symm
        · exact absurd hm hxs
      refine ⟨0, [], xs, ?_, by rw [hx]; rfl, rfl, hxs⟩
      simp only [rfindIdx, rfindIdx_eq_none c xs hxs]
      rw [if_pos hx]

theorem not_mem_pyStrip (c : Char) (l : List Char) (h : c ∉ l) :
    c ∉ pyStrip l := by
  intro hmem
  apply h
  unfold pyStrip at hmem
  rw [List.mem_reverse] at hmem
  have h2 := (List.dropWhile_sublist pyIsSpace).mem hmem
  rw [List.mem_reverse] at h2
  exact (List.dropWhile_sublist pyIsSpace).mem h2

theorem mem_accFrom_last (env : PollEnv) (a : Char) :
    ∀ n i, a ∈ env.chunks (i + n) → a ∈ accFrom env i (n + 1) := by
  intro n
  induction n with
  | zero =>
    intro i h
    simp only [accFrom]
    exact List.mem_append.mpr (Or.inl (by simpa using h))
  | succ n2 ih =>
    intro i h
    simp only [accFrom]
    refine List.mem_append.mpr (Or.inr ?_)
    exact ih (i + 1) (by

      have : i + 1 + n2 = i + (n2 + 1) := by omega
      rw [this]
      exact h)

theorem count_accFrom (env : PollEnv) (c : Char) :
    ∀ n i, (∀ m, m < n → c ∉ env.chunks (i + m)) →
      List.count c (accFrom env i (n + 1)) = List.count c (env.chunks (i + n)) := by
  intro n
  induction n with
  | zero =>
    intro i _
    simp only [accFrom]
    rw [List.count_append]
    simp [List.count_nil]
  | succ n2 ih =>
    intro i h
    have hzero : List.count c (env.chunks i) = 0 := by
      rw [List.count_eq_zero]
      have := h 0 (by omega)
      simpa using this
    have hrest : ∀ m, m < n2 → c ∉ env.chunks (i + 1 + m) := by
      intro m hm
      have := h (m + 1) (by omega)
      have he : i + (m + 1) = i + 1 + m := by omega
      rw [he] at this
      exact this
    calc List.count c (accFrom env i (n2 + 1 + 1))
        = List.count c (env.chunks i)
            + List.count c (accFrom env (i + 1) (n2 + 1)) := by
          simp only [accFrom]
          rw [List.count_append]
      _ = List.count c (env.chunks (i + 1 + n2)) := by
          rw [hzero, ih (i + 1) hrest]
          omega
      _ = List.count c (env.chunks (i + (n2 + 1))) := by
          have he : i + 1 + n2 = i + (n2 + 1) := by omega
          rw [he]

theorem waitChar_ok_decomp (env : PollEnv) (c : Char) (endT : Int) :
    ∀ fuel i buf s, waitCharFrom env c endT fuel i buf = some (WaitRes.ok s) →
      ∃ n, c ∈ env.chunks (i + n)
        ∧ (∀ m, m < n → c ∉ env.chunks (i + m))
        ∧ s = pyStrip (pySlice (buf ++ accFrom env i (n + 1))
            (pyRfind c (buf ++ accFrom env i (n + 1)))) := by
  intro fuel
  induction fuel with
  | zero => intro i buf s h; simp [waitCharFrom] at h
  | succ f ih =>
    intro i buf s h
    simp only [waitCharFrom] at h
    by_cases hg : env.tGuard i < endT
    · rw [if_pos hg] at h
      by_cases hc : env.chunks i = []
      · rw [if_pos hc] at h
        obtain ⟨n, h1, h2, h3⟩ := ih (i + 1) buf s h
        refine ⟨n + 1, ?_, ?_, ?_⟩
        · have he : i + (n + 1) = i + 1 + n := by omega
          rw [he]; exact h1
        · intro m hm
          cases m with
          | zero =>
            rw [Nat.add_zero, hc]
            exact List.not_mem_nil c
          | succ m2 =>
            have he : i + (m2 + 1) = i + 1 + m2 := by omega
            rw [he]
            exact h2 m2 (by omega)
        · have he : accFrom env i (n + 1 + 1) = accFrom env (i + 1) (n + 1) := by
            simp only [accFrom, hc]
            rfl
          rw [he]
          exact h3
      · rw [if_neg hc] at h
        by_cases hmem : c ∈ env.chunks i
        · rw [if_pos hmem] at h
          have hs : s = pyStrip (pySlice (buf ++ env.chunks i)
              (pyRfind c (buf ++ env.chunks i))) := by
            injection h with h2
            injection h2 with h3
            exact h3.symm
          refine ⟨0, by simpa using hmem, by omega, ?_⟩
          have he : accFrom env i (0 + 1) = env.chunks i := by
            simp only [accFrom]
            exact List.append_nil _
          rw [he]
          exact hs
        · rw [if_neg hmem] at h
          obtain ⟨n, h1, h2, h3⟩ := ih (i + 1) (buf ++ env.chunks i) s h
          refine ⟨n + 1, ?_, ?_, ?_⟩
          · have he : i + (n + 1) = i + 1 + n := by omega
            rw [he]; exact h1
          · intro m hm
            cases m with
            | zero => simpa using hmem
            | succ m2 =>
              have he : i + (m2 + 1) = i + 1 + m2 := by omega
              rw [he]
              exact h2 m2 (by omega)
          · have he : buf ++ accFrom env i (n + 1 + 1) =
                buf ++ env.chunks i ++ accFrom env (i + 1) (n + 1) := by
              simp only [accFrom]
              rw [List.append_assoc]
            rw [he]
            exact h3
    · rw [if_neg hg] at h
      simp at h

/-- C4 counterexample: with a single read chunk carrying two sentinels,
the sentinel-character wait returns the trimmed text preceding the last
sentinel, and that text still contains the earlier sentinel. -/
theorem waitChar_result_contains_sentinel_cex :
    waitCharFrom
        ⟨fun j => if j = 0 then "1^2^".toList else [],
         fun j => (j : Int), fun _ => 0, fun _ => 0⟩
        '^' 100 2 0 [] = some (WaitRes.ok ("1^2".toList))
    ∧ '^' ∈ "1^2".toList := ⟨rfl, by decide⟩

/-- C4 amended: a successful sentinel-character wait returns exactly the
trimmed text preceding the last occurrence of the sentinel in the
accumulated buffer (all chunks up to and including the first one that
contains the sentinel); the returned text is sentinel-free whenever that
final chunk contains exactly one occurrence of the sentinel, but keeps
earlier occurrences when a single chunk carries several. -/
theorem waitChar_ok_prefix_before_last_sentinel (env : PollEnv) (c : Char)
    (endT : Int) (fuel : Nat) (s : List Char)
    (h : waitCharFrom env c endT fuel 0 [] = some (WaitRes.ok s)) :
    ∃ n, c ∈ env.chunks n
      ∧ (∀ m, m < n → c ∉ env.chunks m)
      ∧ s = pyStrip (pySlice (accFrom env 0 (n + 1))
          (pyRfind c (accFrom env 0 (n + 1))))
      ∧ (List.count c (env.chunks n) = 1 → c ∉ s) := by
  obtain ⟨n, h1, h2, h3⟩ := waitChar_ok_decomp env c endT fuel 0 [] s h
  rw [Nat.zero_add] at h1
  rw [List.nil_append] at h3
  have h2z : ∀ m, m < n → c ∉ env.chunks m := by
    intro m hm
    have := h2 m hm
    rwa [Nat.zero_add] at this
  refine ⟨n, h1, h2z, h3, ?_⟩
  intro hcount
  have hmemB : c ∈ accFrom env 0 (n + 1) :=
    mem_accFrom_last env c n 0 (by rwa [Nat.zero_add])
  have hcntB : List.count c (accFrom env 0 (n + 1)) = 1 := by
    have := count_accFrom env c n 0 (by
      intro m hm
      rw [Nat.zero_add]
      exact h2z m hm)
    rw [this, Nat.zero_add]
    exact hcount
  obtain ⟨idx, pre, suf, hfind, hdec, hlen, _⟩ :=
    rfind_decomp c (accFrom env 0 (n + 1)) hmemB
  have hslice : pySlice (accFrom env 0 (n + 1))
      (pyRfind c (accFrom env 0 (n + 1))) = pre := by
    simp only [pyRfind, hfind]
    unfold pySlice
    rw [if_neg (by omega)]
    rw [Int.toNat_ofNat, ← hlen, hdec]
    exact List.take_left pre (c :: suf)
  have hpre : c ∉ pre := by
    apply List.count_eq_zero.mp
    have : List.count c (accFrom env 0 (n + 1)) =
        List.count c pre + (List.count c suf + 1) := by
      rw [hdec, List.count_append, List.count_cons_self]
    omega
  rw [h3, hslice]
  exact not_mem_pyStrip c pre hpre

/-- Witness for the amended C4: a stream whose first chunk is 12^ gives
the decomposition with the returned text 12, sentinel-free. -/
theorem waitChar_ok_prefix_before_last_sentinel_inst :
    ∃ n, '^' ∈ PollEnv.chunks
        ⟨fun j => if j = 0 then "12^".toList else [],
         fun j => (j : Int), fun _ => 0, fun _ => 0⟩ n
      ∧ (∀ m, m < n → '^' ∉ PollEnv.chunks
          ⟨fun j => if j = 0 then "12^".toList else [],
           fun j => (j : Int), fun _ => 0, fun _ => 0⟩ m)
      ∧ "12".toList = pyStrip (pySlice
          (accFrom ⟨fun j => if j = 0 then "12^".toList else [],
            fun j => (j : Int), fun _ => 0, fun _ => 0⟩ 0 (n + 1))
          (pyRfind '^' (accFrom ⟨fun j => if j = 0 then "12^".toList else [],
            fun j => (j : Int), fun _ => 0, fun _ => 0⟩ 0 (n + 1))))
      ∧ (List.count '^' (PollEnv.chunks
          ⟨fun j => if j = 0 then "12^".toList else [],
           fun j => (j : Int), fun _ => 0, fun _ => 0⟩ n) = 1 →
          '^' ∉ "12".toList) :=
  waitChar_ok_prefix_before_last_sentinel
    ⟨fun j => if j = 0 then "12^".toList else [],
     fun j => (j : Int), fun _ => 0, fun _ => 0⟩ '^' 100 2 ("12".toList) rfl

theorem silence_ok_needs_quiet_aux (env : PollEnv) (quiet endT : Int) :
    ∀ fuel i buf lastRx s,
      waitSilenceFrom (fun _ => WaitRes.timeout) env quiet endT fuel i buf
        lastRx = some (WaitRes.ok s) →
      ∃ n, env.tGuard (i + n) < endT ∧ env.chunks (i + n) = []
        ∧ quiet ≤ env.tChk (i + n) - lastRxAt env lastRx i n := by
  intro fuel
  induction fuel with
  | zero => intro i buf lastRx s h; simp [waitSilenceFrom] at h
  | succ f ih =>
    intro i buf lastRx s h
    simp only [waitSilenceFrom] at h
    by_cases hg : env.tGuard i < endT
    · rw [if_pos hg] at h
      by_cases hc : env.chunks i = []
      · rw [if_pos hc] at h
        by_cases hq : quiet ≤ env.tChk i - lastRx
        · refine ⟨0, ?_, ?_, ?_⟩
          · rwa [Nat.add_zero]
          · rwa [Nat.add_zero]
          · rw [Nat.add_zero]
            simpa [lastRxAt] using hq
        · rw [if_neg hq] at h
          obtain ⟨n, h1, h2, h3⟩ := ih (i + 1) buf lastRx s h
          refine ⟨n + 1, ?_, ?_, ?_⟩
          · have he : i + (n + 1) = i + 1 + n := by omega
            rw [he]; exact h1
          · have he : i + (n + 1) = i + 1 + n := by omega
            rw [he]; exact h2
          · have he : i + (n + 1) = i + 1 + n := by omega
            rw [he]
            have hrx : lastRxAt env lastRx i (n + 1) =
                lastRxAt env lastRx (i + 1) n := by
              simp only [lastRxAt]
              rw [if_pos hc]
            rw [hrx]
            exact h3
      · rw [if_neg hc] at h
        obtain ⟨n, h1, h2, h3⟩ := ih (i + 1) (buf ++ env.chunks i)
          (env.tRx i) s h
        refine ⟨n + 1, ?_, ?_, ?_⟩
        · have he : i + (n + 1) = i + 1 + n := by omega
          rw [he]; exact h1
        · have he : i + (n + 1) = i + 1 + n := by omega
          rw [he]; exact h2
        · have he : i + (n + 1) = i + 1 + n := by omega
          rw [he]
          have hrx : lastRxAt env lastRx i (n + 1) =
              lastRxAt env (env.tRx i) (i + 1) n := by
            simp only [lastRxAt]
            rw [if_neg hc]
          rw [hrx]
          exact h3
    · rw [if_neg hg] at h
      simp at h

/-- C3 amended: the silence-mode wait of vxm.py returns text normally
only when some poll observes an empty read at a clock before the
deadline with at least quiet milliseconds elapsed since the last received
byte; when the deadline elapses before any such quiet window the result
can only be the TimeoutError. libvxm.py's _wait_ready_silence instead
returns the trimmed accumulated buffer on deadline expiry (see the
counterexample). -/
theorem vxm_silence_ok_needs_quiet_window (env : PollEnv)
    (quiet endT : Int) (fuel i : Nat) (buf : List Char) (lastRx : Int)
    (s : List Char)
    (h : vxmSilence env quiet endT fuel i buf lastRx =
      some (WaitRes.ok s)) :
    ∃ n, env.tGuard (i + n) < endT ∧ env.chunks (i + n) = []
      ∧ quiet ≤ env.tChk (i + n) - lastRxAt env lastRx i n := by
  rw [vxmSilence] at h
  exact silence_ok_needs_quiet_aux env quiet endT fuel i buf lastRx s h

/-- Stream for the C3 counterexample: two characters arrive at once,
then the deadline (100 ms) passes before any quiet window of 150 ms can
be observed. -/
def silenceDeadlineEnv : PollEnv :=
  ⟨fun j => if j = 0 then "ab".toList else [],
   fun j => 100 * (j : Int), fun _ => 0, fun _ => 0⟩

/-- C3 counterexample: on a stream whose deadline elapses before any
quiet window is observed, libvxm.py's quiet-window wait returns the
accumulated buffer as a normal result instead of failing with Timeout
(vxm.py's wait on the same stream does time out). -/
theorem silence_deadline_returns_buffer_cex :
    libSilence silenceDeadlineEnv 150 100 2 0 [] 0 =
      some (WaitRes.ok ("ab".toList))
    ∧ vxmSilence silenceDeadlineEnv 150 100 2 0 [] 0 =
      some WaitRes.timeout :=
  ⟨rfl, rfl⟩

/-- Stream for the C3 witness: two characters, then silence long enough
for the 150 ms quiet window to fire well before the 300 ms deadline. -/
def silenceQuietEnv : PollEnv :=
  ⟨fun j => if j = 0 then "ab".toList else [],
   fun j => 10 * (j : Int), fun _ => 5, fun _ => 200⟩

/-- Witness for the amended C3: a run that returns text, together with
the quiet window the theorem extracts from it. -/
theorem vxm_silence_ok_needs_quiet_window_inst :
    ∃ n, silenceQuietEnv.tGuard (0 + n) < 300
      ∧ silenceQuietEnv.chunks (0 + n) = []
      ∧ (150 : Int) ≤ silenceQuietEnv.tChk (0 + n)
          - lastRxAt silenceQuietEnv 0 0 n :=
  vxm_silence_ok_needs_quiet_window silenceQuietEnv 150 300 3 0 [] 0
    ("ab".toList) rfl

theorem silence_ok_agree_aux (env : PollEnv) (quiet endT : Int) :
    ∀ fuel i buf lastRx s,
      waitSilenceFrom (fun _ => WaitRes.timeout) env quiet endT fuel i buf
        lastRx = some (WaitRes.ok s) →
      waitSilenceFrom (fun b => WaitRes.ok (pyStrip b)) env quiet endT fuel
        i buf lastRx = some (WaitRes.ok s) := by
  intro fuel
  induction fuel with
  | zero => intro i buf lastRx s h; simp [waitSilenceFrom] at h
  | succ f ih =>
    intro i buf lastRx s h
    simp only [waitSilenceFrom] at h ⊢
    by_cases hg : env.tGuard i < endT
    · rw [if_pos hg] at h ⊢
      by_cases hc : env.chunks i = []
      · rw [if_pos hc] at h ⊢
        by_cases hq : quiet ≤ env.tChk i - lastRx
        · rw [if_pos hq] at h ⊢
          exact h
        · rw [if_neg hq] at h ⊢
          exact ih (i + 1) buf lastRx s h
      · rw [if_neg hc] at h ⊢
        exact ih (i + 1) (buf ++ env.chunks i) (env.tRx i) s h
    · rw [if_neg hg] at h
      simp at h

/-- C10 amended: whenever vxm.py's silence-mode wait returns text
normally (which happens exactly through an observed quiet window),
libvxm.py's _wait_ready_silence on the same byte stream, quiet window,
deadline and fuel returns the same text; the two implementations diverge
only on the deadline path, where vxm.py raises the TimeoutError and
libvxm.py returns the trimmed accumulated buffer (see the
counterexample). -/
theorem vxm_silence_ok_implies_lib_silence_ok (env : PollEnv)
    (quiet endT : Int) (fuel i : Nat) (buf : List Char) (lastRx : Int)
    (s : List Char)
    (h : vxmSilence env quiet endT fuel i buf lastRx =
      some (WaitRes.ok s)) :
    libSilence env quiet endT fuel i buf lastRx =
      some (WaitRes.ok s) := by
  rw [vxmSilence] at h
  rw [libSilence]
  exact silence_ok_agree_aux env quiet endT fuel i buf lastRx s h

/-- Stream for the C10 counterexample: two characters arrive, then the
120 ms deadline passes before any 200 ms quiet window can be observed. -/
def silenceDivergeEnv : PollEnv :=
  ⟨fun j => if j = 0 then "xy".toList else [],
   fun j => 120 * (j : Int), fun _ => 0, fun _ => 0⟩

/-- C10 counterexample: on one and the same byte stream, quiet window
and timeout, vxm.py's silence wait fails with Timeout while libvxm.py's
_wait_ready_silence returns the text xy — the two implementations do not
produce the same outcome for every stream. -/
theorem silence_impls_diverge_cex :
    vxmSilence silenceDivergeEnv 200 120 2 0 [] 0 = some WaitRes.timeout
    ∧ libSilence silenceDivergeEnv 200 120 2 0 [] 0 =
        some (WaitRes.ok ("xy".toList))
    ∧ some WaitRes.timeout ≠ some (WaitRes.ok ("xy".toList)) :=
  ⟨rfl, rfl, by decide⟩

/-- Stream for the C10 witness: characters then a quiet window inside
the deadline. -/
def silenceAgreeEnv : PollEnv :=
  ⟨fun j => if j = 0 then "ok".toList else [],
   fun j => 10 * (j : Int), fun _ => 5, fun _ => 400⟩

/-- Witness for the amended C10: on a stream where vxm.py's silence wait
returns the text ok, libvxm.py returns the same text. -/
theorem vxm_silence_ok_implies_lib_silence_ok_inst :
    libSilence silenceAgreeEnv 150 300 3 0 [] 0 =
      some (WaitRes.ok ("ok".toList)) :=
  vxm_silence_ok_implies_lib_silence_ok silenceAgreeEnv 150 300 3 0 [] 0
    ("ok".toList) rfl
